import Mathlib

/-!
Verification of the keystroke core of `crates/gpui/src/platform/keystroke.rs`:
the `Keystroke` data model, the chord grammar parser `Keystroke::parse`, the
candidate generator `match_candidates`, the IME simulation helper
`with_simulated_ime`, and the `Display` formatter.

Rust `&str` values are modelled as `List Char` (`Str`); Rust's byte-oriented
`str::len` is modelled by `utf8Len`, the sum of the UTF-8 sizes of the
characters, and `str::split('-')` by `splitChar '-'`, which keeps empty
pieces and yields a single empty piece on the empty string, exactly as in
Rust.
-/

namespace Keystrokes

/-- Model of Rust `&str`: a list of unicode scalar values. -/
abbrev Str := List Char

/-- Model of Rust `str::len`: the length of the string in UTF-8 bytes. -/
def utf8Len (s : Str) : Nat :=
  (s.map Char.utf8Size).sum

/-- Model of Rust `str::split('-')` (as collected into a list): split at every
occurrence of the separator, keeping empty pieces; the empty string yields one
empty piece. -/
def splitChar (sep : Char) : Str → List Str
  | [] => [[]]
  | c :: rest =>
    if c = sep then [] :: splitChar sep rest
    else (c :: (splitChar sep rest).headD []) :: (splitChar sep rest).tail

/-- The state of the modifier keys (field for field from `struct Modifiers`). -/
structure Modifiers where
  control : Bool
  alt : Bool
  shift : Bool
  command : Bool
  function : Bool
deriving DecidableEq, Repr

/-- A keystroke (field for field from `struct Keystroke`). -/
structure Keystroke where
  modifiers : Modifiers
  key : Str
  ime_key : Option Str
deriving DecidableEq, Repr

/-- The token `ctrl` of the chord grammar. -/
def ctrlTok : Str := ['c', 't', 'r', 'l']

/-- The token `alt` of the chord grammar. -/
def altTok : Str := ['a', 'l', 't']

/-- The token `shift` of the chord grammar. -/
def shiftTok : Str := ['s', 'h', 'i', 'f', 't']

/-- The token `cmd` of the chord grammar. -/
def cmdTok : Str := ['c', 'm', 'd']

/-- The token `fn` of the chord grammar. -/
def fnTok : Str := ['f', 'n']

/-- Candidate generation, translated from `Keystroke::match_candidates`. -/
def Keystroke.match_candidates (self : Keystroke) : List Keystroke :=
  match self.ime_key with
  | some ime_key =>
    (if ime_key ≠ self.key then
      [{ modifiers :=
           { control := self.modifiers.control
             alt := false
             shift := false
             command := false
             function := false }
         key := ime_key
         ime_key := none }]
     else [])
    ++ [{ self with ime_key := none }]
  | none => [self]

/-- The mutable locals of `Keystroke::parse` before the final `Keystroke` is
assembled. -/
structure ParseState where
  control : Bool := false
  alt : Bool := false
  shift : Bool := false
  command : Bool := false
  function : Bool := false
  key : Option Str := none
  ime_key : Option Str := none
deriving DecidableEq, Repr

/-- The `while let` loop of `Keystroke::parse`, walking the `'-'`-separated
components with one token of lookahead (`components.peek()` becomes the head
of `rest`). -/
def parseLoop (source : Str) : List Str → ParseState → Except Str ParseState
  | [], st => .ok st
  | component :: rest, st =>
    if component = ctrlTok then parseLoop source rest { st with control := true }
    else if component = altTok then parseLoop source rest { st with alt := true }
    else if component = shiftTok then parseLoop source rest { st with shift := true }
    else if component = cmdTok then parseLoop source rest { st with command := true }
    else if component = fnTok then parseLoop source rest { st with function := true }
    else
      match rest with
      | next :: rest2 =>
        if next = [] ∧ source.getLast? = some '-' then
          .ok { st with key := some ['-'] }
        else if 1 < utf8Len next ∧ next.headD ' ' = '>' then
          parseLoop source rest2
            { st with key := some component, ime_key := some (next.drop 1) }
        else .error source
      | [] => .ok { st with key := some component }

/-- The chord parser, translated from `Keystroke::parse`; the error payload is
the offending source string, as in `anyhow!("Invalid keystroke `{}`", source)`. -/
def Keystroke.parse (source : Str) : Except Str Keystroke :=
  match parseLoop source (splitChar '-' source) {} with
  | .error e => .error e
  | .ok st =>
    match st.key with
    | some key =>
      .ok { modifiers :=
              { control := st.control
                alt := st.alt
                shift := st.shift
                command := st.command
                function := st.function }
            key := key
            ime_key := st.ime_key }
    | none => .error source

/-- Model of Rust `str::to_uppercase`, applied character by character (the
keystroke labels involved are ASCII, where the two coincide). -/
def upperStr (s : Str) : Str := s.map Char.toUpper

/-- The named keys of `with_simulated_ime` that never produce text. -/
def noTextKeys : List Str :=
  [['u', 'p'], ['d', 'o', 'w', 'n'], ['l', 'e', 'f', 't'],
   ['r', 'i', 'g', 'h', 't'], ['p', 'a', 'g', 'e', 'u', 'p'],
   ['p', 'a', 'g', 'e', 'd', 'o', 'w', 'n'], ['h', 'o', 'm', 'e'],
   ['e', 'n', 'd'], ['d', 'e', 'l', 'e', 't', 'e'],
   ['e', 's', 'c', 'a', 'p', 'e'], ['b', 'a', 'c', 'k', 's', 'p', 'a', 'c', 'e'],
   ['f', '1'], ['f', '2'], ['f', '3'], ['f', '4'], ['f', '5'], ['f', '6'],
   ['f', '7'], ['f', '8'], ['f', '9'], ['f', '1', '0'], ['f', '1', '1'],
   ['f', '1', '2']]

/-- IME simulation, translated from `Keystroke::with_simulated_ime`. -/
def Keystroke.with_simulated_ime (self : Keystroke) : Keystroke :=
  if self.ime_key = none
      ∧ self.modifiers.command = false
      ∧ self.modifiers.control = false
      ∧ self.modifiers.function = false
      ∧ self.modifiers.alt = false then
    { self with ime_key :=
        if self.key = ['s', 'p', 'a', 'c', 'e'] then some [' ']
        else if self.key = ['t', 'a', 'b'] then some ['\t']
        else if self.key = ['e', 'n', 't', 'e', 'r'] then some ['\n']
        else if self.key ∈ noTextKeys then none
        else if self.modifiers.shift then some (upperStr self.key)
        else some self.key }
  else self

/-- The display formatter, translated from `impl Display for Keystroke`; the
byte-length test `key.len() == 1` becomes `utf8Len key = 1` and
`to_ascii_uppercase` is `Char.toUpper`. -/
def Keystroke.display (self : Keystroke) : Str :=
  (if self.modifiers.control then ['^'] else [])
  ++ (if self.modifiers.alt then ['⌥'] else [])
  ++ (if self.modifiers.command then ['⌘'] else [])
  ++ (if self.modifiers.shift then ['⇧'] else [])
  ++ (if self.key = ['b', 'a', 'c', 'k', 's', 'p', 'a', 'c', 'e'] then ['⌫']
      else if self.key = ['u', 'p'] then ['↑']
      else if self.key = ['d', 'o', 'w', 'n'] then ['↓']
      else if self.key = ['l', 'e', 'f', 't'] then ['←']
      else if self.key = ['r', 'i', 'g', 'h', 't'] then ['→']
      else if self.key = ['t', 'a', 'b'] then ['⇥']
      else if self.key = ['e', 's', 'c', 'a', 'p', 'e'] then ['⎋']
      else if utf8Len self.key = 1 then [(self.key.headD 'A').toUpper]
      else self.key)

/-- The display policy as the spec words it: the same glyph table, but with the
fallback single-character test expressed as "the label is exactly one
character" (`List.length`) instead of the code's one-byte test. -/
def displaySpec (self : Keystroke) : Str :=
  (if self.modifiers.control then ['^'] else [])
  ++ (if self.modifiers.alt then ['⌥'] else [])
  ++ (if self.modifiers.command then ['⌘'] else [])
  ++ (if self.modifiers.shift then ['⇧'] else [])
  ++ (if self.key = ['b', 'a', 'c', 'k', 's', 'p', 'a', 'c', 'e'] then ['⌫']
      else if self.key = ['u', 'p'] then ['↑']
      else if self.key = ['d', 'o', 'w', 'n'] then ['↓']
      else if self.key = ['l', 'e', 'f', 't'] then ['←']
      else if self.key = ['r', 'i', 'g', 'h', 't'] then ['→']
      else if self.key = ['t', 'a', 'b'] then ['⇥']
      else if self.key = ['e', 's', 'c', 'a', 'p', 'e'] then ['⎋']
      else if self.key.length = 1 then [(self.key.headD 'A').toUpper]
      else self.key)

theorem toNat_gt_of_utf8Size_ne_one (c : Char) (h : c.utf8Size ≠ 1) :
    127 < c.toNat := by
  by_contra hle
  apply h
  simp only [Char.utf8Size]
  rw [if_pos]
  exact show c.val.toNat ≤ 127 by simp [Char.toNat] at hle; omega

theorem toUpper_eq_of_utf8Size_ne_one (c : Char) (h : c.utf8Size ≠ 1) :
    c.toUpper = c := by
  have h127 := toNat_gt_of_utf8Size_ne_one c h
  rw [Char.toUpper, if_neg]
  rintro ⟨h1, h2⟩
  omega

theorem length_eq_one_of_utf8Len_eq_one (s : Str) (h : utf8Len s = 1) :
    s.length = 1 := by
  match s with
  | [] => simp [utf8Len] at h
  | [c] => rfl
  | c :: d :: t =>
    have hc := c.utf8Size_pos
    have hd := d.utf8Size_pos
    simp [utf8Len] at h
    omega

/-- C3: for every `Keystroke` whose `ime_key` is present and differs from its
`key`, `match_candidates` returns two candidates in order: first the stripped
candidate (no `ime_key`, key set to the original `ime_key`, only the `control`
flag preserved), then the literal candidate (no `ime_key`, original key and
modifiers unchanged). -/
theorem match_candidates_pair (k : Keystroke) (i : Str)
    (h1 : k.ime_key = some i) (h2 : i ≠ k.key) :
    k.match_candidates =
      [⟨⟨k.modifiers.control, false, false, false, false⟩, i, none⟩,
       ⟨k.modifiers, k.key, none⟩] := by
  obtain ⟨m, key, ime⟩ := k
  simp only [Keystroke.match_candidates] at *
  subst h1
  simp [h2]

theorem match_candidates_pair_witness :
    (Keystroke.mk ⟨true, true, true, true, true⟩ ['a'] (some ['b'])).match_candidates =
      [⟨⟨true, false, false, false, false⟩, ['b'], none⟩,
       ⟨⟨true, true, true, true, true⟩, ['a'], none⟩] :=
  match_candidates_pair ⟨⟨true, true, true, true, true⟩, ['a'], some ['b']⟩ ['b']
    rfl (by decide)

/-- C4: `match_candidates` returns exactly one element when `ime_key` is
absent or equal to `key`, exactly two when it is present and different, and is
never empty. -/
theorem match_candidates_count (k : Keystroke) :
    k.match_candidates.length
        = (match k.ime_key with
           | none => 1
           | some i => if i = k.key then 1 else 2)
      ∧ 1 ≤ k.match_candidates.length := by
  obtain ⟨m, key, ime⟩ := k
  cases ime with
  | none => simp [Keystroke.match_candidates]
  | some i =>
    by_cases h : i = key <;> simp [Keystroke.match_candidates, h]

/-- C9: every element of `match_candidates` has `ime_key = none`. -/
theorem match_candidates_ime_cleared (k c : Keystroke)
    (hc : c ∈ k.match_candidates) : c.ime_key = none := by
  obtain ⟨m, key, ime⟩ := k
  cases ime with
  | none =>
    simp only [Keystroke.match_candidates, List.mem_singleton] at hc
    subst hc
    rfl
  | some i =>
    by_cases h : i = key
    · subst h
      simp [Keystroke.match_candidates] at hc
      subst hc
      rfl
    · simp [Keystroke.match_candidates, h] at hc
      rcases hc with hc | hc <;> (subst hc; rfl)

theorem match_candidates_ime_cleared_witness :
    (Keystroke.mk ⟨false, false, false, false, false⟩ ['b'] none).ime_key = none :=
  match_candidates_ime_cleared
    ⟨⟨false, false, false, false, false⟩, ['a'], some ['b']⟩
    ⟨⟨false, false, false, false, false⟩, ['b'], none⟩
    (by decide)

/-- C10: `with_simulated_ime` never changes the `modifiers` or `key` fields;
only `ime_key` may differ. -/
theorem with_simulated_ime_frame (k : Keystroke) :
    k.with_simulated_ime.modifiers = k.modifiers
      ∧ k.with_simulated_ime.key = k.key := by
  unfold Keystroke.with_simulated_ime
  split <;> simp

/-- C5: `with_simulated_ime` applies only when `ime_key` is absent and none of
command, control, function, alt are set; under that precondition it fills
`ime_key` from the table the spec lists (space, tab, enter, the named
navigation and function keys, and otherwise the key label upper-cased exactly
when shift is set); when the precondition fails the keystroke is returned
unmodified. -/
theorem with_simulated_ime_spec (k : Keystroke) :
    (k.ime_key = none
        ∧ k.modifiers.command = false
        ∧ k.modifiers.control = false
        ∧ k.modifiers.function = false
        ∧ k.modifiers.alt = false →
      k.with_simulated_ime =
        { k with ime_key :=
            if k.key = ['s', 'p', 'a', 'c', 'e'] then some [' ']
            else if k.key = ['t', 'a', 'b'] then some ['\t']
            else if k.key = ['e', 'n', 't', 'e', 'r'] then some ['\n']
            else if k.key ∈ noTextKeys then none
            else if k.modifiers.shift then some (upperStr k.key)
            else some k.key })
    ∧ (¬(k.ime_key = none
          ∧ k.modifiers.command = false
          ∧ k.modifiers.control = false
          ∧ k.modifiers.function = false
          ∧ k.modifiers.alt = false) →
        k.with_simulated_ime = k) := by
  constructor
  · intro h
    unfold Keystroke.with_simulated_ime
    rw [if_pos h]
  · intro h
    unfold Keystroke.with_simulated_ime
    rw [if_neg h]

theorem with_simulated_ime_spec_witness :
    (Keystroke.mk ⟨false, false, true, false, false⟩
        ['s', 'p', 'a', 'c', 'e'] none).with_simulated_ime =
      Keystroke.mk ⟨false, false, true, false, false⟩
        ['s', 'p', 'a', 'c', 'e'] (some [' ']) := by
  have h := (with_simulated_ime_spec
    ⟨⟨false, false, true, false, false⟩, ['s', 'p', 'a', 'c', 'e'], none⟩).1
    (by decide)
  simpa using h

/-- C6: the display formatter emits, in fixed order, a glyph per active
modifier (control, alt, command, shift; function renders nothing), then the
key glyph: iconographic overrides for backspace, up, down, left, right, tab,
escape; for any other key whose label is exactly one character, that character
upper-cased; otherwise the key label verbatim. -/
theorem display_matches_spec (k : Keystroke) : k.display = displaySpec k := by
  unfold Keystroke.display displaySpec
  congr 1
  by_cases h1 : k.key = ['b', 'a', 'c', 'k', 's', 'p', 'a', 'c', 'e']
  · simp [h1]
  by_cases h2 : k.key = ['u', 'p']
  · simp [h1, h2]
  by_cases h3 : k.key = ['d', 'o', 'w', 'n']
  · simp [h1, h2, h3]
  by_cases h4 : k.key = ['l', 'e', 'f', 't']
  · simp [h1, h2, h3, h4]
  by_cases h5 : k.key = ['r', 'i', 'g', 'h', 't']
  · simp [h1, h2, h3, h4, h5]
  by_cases h6 : k.key = ['t', 'a', 'b']
  · simp [h1, h2, h3, h4, h5, h6]
  by_cases h7 : k.key = ['e', 's', 'c', 'a', 'p', 'e']
  · simp [h1, h2, h3, h4, h5, h6, h7]
  by_cases hu : utf8Len k.key = 1
  · have hl := length_eq_one_of_utf8Len_eq_one _ hu
    simp [h1, h2, h3, h4, h5, h6, h7, hu, hl]
  · by_cases hl : k.key.length = 1
    · obtain ⟨c, hc⟩ := List.length_eq_one.mp hl
      have hsize : c.utf8Size ≠ 1 := by
        intro hs
        apply hu
        rw [hc]
        simp [utf8Len, hs]
      simp [h1, h2, h3, h4, h5, h6, h7, hu, hl, hc,
        toUpper_eq_of_utf8Size_ne_one c hsize]
    · simp [h1, h2, h3, h4, h5, h6, h7, hu, hl]

/-- C7: the four acceptance examples: `ctrl-s`, `cmd-shift-p`, `a->å`, and the
bare hyphen `-` all parse to the keystrokes the spec gives. -/
theorem parse_examples :
    Keystroke.parse ['c', 't', 'r', 'l', '-', 's']
        = .ok ⟨⟨true, false, false, false, false⟩, ['s'], none⟩
      ∧ Keystroke.parse ['c', 'm', 'd', '-', 's', 'h', 'i', 'f', 't', '-', 'p']
        = .ok ⟨⟨false, false, true, true, false⟩, ['p'], none⟩
      ∧ Keystroke.parse ['a', '-', '>', 'å']
        = .ok ⟨⟨false, false, false, false, false⟩, ['a'], some ['å']⟩
      ∧ Keystroke.parse ['-']
        = .ok ⟨⟨false, false, false, false, false⟩, ['-'], none⟩ :=
  ⟨rfl, rfl, rfl, rfl⟩

/-- C1, counterexample: the claim says `parse ""` returns an error, but the
empty string parses successfully (its single empty component becomes the key),
yielding an empty key and no modifiers. -/
theorem parse_empty_ok :
    Keystroke.parse [] = .ok ⟨⟨false, false, false, false, false⟩, [], none⟩ :=
  rfl

/-- C2, counterexample: `parse "ctrl-"` succeeds and its key field is the
empty string, so a successful parse does not guarantee a non-empty key. -/
theorem parse_ctrl_hyphen_ok :
    Keystroke.parse ['c', 't', 'r', 'l', '-']
      = .ok ⟨⟨true, false, false, false, false⟩, [], none⟩ :=
  rfl

/-- The five modifier tokens of the chord grammar. -/
def modifierTokens : List Str := [ctrlTok, altTok, shiftTok, cmdTok, fnTok]

/-- The rejection condition as the spec words it: walking the components, a
key token followed by a continuation token that is neither the
empty-token/trailing-hyphen special case nor a `>`-prefixed token of length
greater than one is malformed (an accepted IME continuation is consumed and
the walk goes on). -/
def malformedAfterKey (source : Str) : List Str → Bool
  | component :: next :: rest =>
    if component ∈ modifierTokens then malformedAfterKey source (next :: rest)
    else if next = [] ∧ source.getLast? = some '-' then false
    else if 1 < next.length ∧ next.headD ' ' = '>' then malformedAfterKey source rest
    else true
  | _ => false

/-- The full rejection predicate of the spec (amended: the empty string is not
rejected, because its single empty component becomes the key): either every
component is a modifier token, or some key token has a malformed
continuation. -/
def rejectsSpec (source : Str) : Prop :=
  (∀ c ∈ splitChar '-' source, c ∈ modifierTokens)
    ∨ malformedAfterKey source (splitChar '-' source) = true

/-- Whether `Keystroke.parse` fails on the given source. -/
def parseErrs (source : Str) : Bool :=
  match Keystroke.parse source with
  | .error _ => true
  | .ok _ => false

theorem utf8Len_pos_iff (s : Str) : 0 < utf8Len s ↔ 0 < s.length := by
  cases s with
  | nil => simp [utf8Len]
  | cons c t =>
    have hc := c.utf8Size_pos
    simp [utf8Len]
    omega

theorem one_lt_utf8Len_iff (next : Str) (hh : next.headD ' ' = '>') :
    1 < utf8Len next ↔ 1 < next.length := by
  cases next with
  | nil => exact absurd hh (by decide)
  | cons c t =>
    simp only [List.headD_cons] at hh
    subst hh
    have ht := utf8Len_pos_iff t
    have h1 : ('>' : Char).utf8Size = 1 := rfl
    simp only [utf8Len, List.map_cons, List.sum_cons, h1, List.length_cons] at *
    omega

/-- The loop either fails or ends with no key recorded, exactly under the
spec's rejection condition (relative to the key already recorded in the
state). -/
theorem parseLoop_err_iff (source : Str) (comps : List Str) (st : ParseState) :
    (match parseLoop source comps st with
      | .error _ => True
      | .ok st' => st'.key = none)
    ↔ ((st.key = none ∧ ∀ c ∈ comps, c ∈ modifierTokens)
        ∨ malformedAfterKey source comps = true) := by
  induction comps, st using parseLoop.induct source with
  | case1 st =>
    simp [parseLoop, malformedAfterKey]
  | case2 rest st ih =>
    cases rest with
    | nil =>
      simp [parseLoop, malformedAfterKey, modifierTokens,
        ctrlTok, altTok, shiftTok, cmdTok, fnTok]
    | cons b l =>
      simpa [parseLoop, malformedAfterKey, modifierTokens,
        ctrlTok, altTok, shiftTok, cmdTok, fnTok] using ih
  | case3 rest st _ ih =>
    cases rest with
    | nil =>
      simp [parseLoop, malformedAfterKey, modifierTokens,
        ctrlTok, altTok, shiftTok, cmdTok, fnTok]
    | cons b l =>
      simpa [parseLoop, malformedAfterKey, modifierTokens,
        ctrlTok, altTok, shiftTok, cmdTok, fnTok] using ih
  | case4 rest st _ _ ih =>
    cases rest with
    | nil =>
      simp [parseLoop, malformedAfterKey, modifierTokens,
        ctrlTok, altTok, shiftTok, cmdTok, fnTok]
    | cons b l =>
      simpa [parseLoop, malformedAfterKey, modifierTokens,
        ctrlTok, altTok, shiftTok, cmdTok, fnTok] using ih
  | case5 rest st _ _ _ ih =>
    cases rest with
    | nil =>
      simp [parseLoop, malformedAfterKey, modifierTokens,
        ctrlTok, altTok, shiftTok, cmdTok, fnTok]
    | cons b l =>
      simpa [parseLoop, malformedAfterKey, modifierTokens,
        ctrlTok, altTok, shiftTok, cmdTok, fnTok] using ih
  | case6 rest st _ _ _ _ ih =>
    cases rest with
    | nil =>
      simp [parseLoop, malformedAfterKey, modifierTokens,
        ctrlTok, altTok, shiftTok, cmdTok, fnTok]
    | cons b l =>
      simpa [parseLoop, malformedAfterKey, modifierTokens,
        ctrlTok, altTok, shiftTok, cmdTok, fnTok] using ih
  | case7 component st h1 h2 h3 h4 h5 next rest2 hsp =>
    have hcomp : component ∉ modifierTokens := by
      simp [modifierTokens, h1, h2, h3, h4, h5]
    obtain ⟨hnx, hend⟩ := hsp
    subst hnx
    simp [parseLoop, malformedAfterKey, hend, hcomp, h1, h2, h3, h4, h5]
  | case8 component st h1 h2 h3 h4 h5 next rest2 hsp hime ih =>
    have hcomp : component ∉ modifierTokens := by
      simp [modifierTokens, h1, h2, h3, h4, h5]
    obtain ⟨hgt, hh⟩ := hime
    have hlen := (one_lt_utf8Len_iff next hh).mp hgt
    have hh' : (next.head?).getD ' ' = '>' := by
      simpa [List.headD_eq_head?_getD] using hh
    simp [parseLoop, malformedAfterKey, hsp, hgt, hh', hlen, hcomp,
      h1, h2, h3, h4, h5] at ih ⊢
    exact ih
  | case9 component st h1 h2 h3 h4 h5 next rest2 hsp hime =>
    have hcomp : component ∉ modifierTokens := by
      simp [modifierTokens, h1, h2, h3, h4, h5]
    have hime' : ¬(1 < utf8Len next ∧ (next.head?).getD ' ' = '>') := by
      simpa [List.headD_eq_head?_getD] using hime
    simp [parseLoop, malformedAfterKey, hsp, hime', hcomp,
      h1, h2, h3, h4, h5]
    by_cases hh : (next.head?).getD ' ' = '>'
    · left
      left
      have hgt : ¬ 1 < utf8Len next := fun hg => hime' ⟨hg, hh⟩
      have := one_lt_utf8Len_iff next (by simpa [List.headD_eq_head?_getD] using hh)
      omega
    · left
      right
      exact hh
  | case10 component st h1 h2 h3 h4 h5 =>
    simp [parseLoop, malformedAfterKey, modifierTokens, h1, h2, h3, h4, h5]

/-- C1 (amended): `parse` fails exactly when every component of the source is
a modifier token, or a key token is followed by a malformed continuation
token; `parse "ctrl"` fails, while `parse ""` and `parse "ctrl-"` succeed
(with an empty key). -/
theorem parse_error_characterization :
    (∀ source : Str, parseErrs source = true ↔ rejectsSpec source)
      ∧ parseErrs ['c', 't', 'r', 'l'] = true
      ∧ parseErrs [] = false
      ∧ parseErrs ['c', 't', 'r', 'l', '-'] = false := by
  refine ⟨fun source => ?_, rfl, rfl, rfl⟩
  have h := parseLoop_err_iff source (splitChar '-' source) {}
  unfold parseErrs Keystroke.parse
  unfold rejectsSpec
  rcases hres : parseLoop source (splitChar '-' source) {} with e | st
  · rw [hres] at h
    constructor
    · intro _
      simpa using h.mp trivial
    · intro _
      rfl
  · rw [hres] at h
    rcases hkey : st.key with _ | key
    · constructor
      · intro _
        simpa using h.mp (by simp [hkey])
      · intro _
        simp [hkey]
    · constructor
      · intro hfalse
        simp [hkey] at hfalse
      · intro hr
        have hconc := h.mpr (by simpa using hr)
        simp [hkey] at hconc

/-- Any key the loop records is either the literal hyphen or one of the
components it walked, so it stays non-empty when no component is empty. -/
theorem parseLoop_key_ne_nil (source : Str) (comps : List Str) (st : ParseState) :
    ([] : Str) ∉ comps → st.key ≠ some ([] : Str) →
    ∀ st', parseLoop source comps st = .ok st' → st'.key ≠ some ([] : Str) := by
  induction comps, st using parseLoop.induct source with
  | case1 st =>
    intro _ hst st' hok
    simp only [parseLoop] at hok
    cases hok
    exact hst
  | case2 rest st ih =>
    intro hmem hst st' hok
    rw [parseLoop.eq_def] at hok
    simp [ctrlTok, altTok, shiftTok, cmdTok, fnTok] at hok
    exact ih (fun hm => hmem (List.mem_cons_of_mem _ hm)) hst st' hok
  | case3 rest st hne1 ih =>
    intro hmem hst st' hok
    rw [parseLoop.eq_def] at hok
    simp [ctrlTok, altTok, shiftTok, cmdTok, fnTok] at hok
    exact ih (fun hm => hmem (List.mem_cons_of_mem _ hm)) hst st' hok
  | case4 rest st hne1 hne2 ih =>
    intro hmem hst st' hok
    rw [parseLoop.eq_def] at hok
    simp [ctrlTok, altTok, shiftTok, cmdTok, fnTok] at hok
    exact ih (fun hm => hmem (List.mem_cons_of_mem _ hm)) hst st' hok
  | case5 rest st hne1 hne2 hne3 ih =>
    intro hmem hst st' hok
    rw [parseLoop.eq_def] at hok
    simp [ctrlTok, altTok, shiftTok, cmdTok, fnTok] at hok
    exact ih (fun hm => hmem (List.mem_cons_of_mem _ hm)) hst st' hok
  | case6 rest st hne1 hne2 hne3 hne4 ih =>
    intro hmem hst st' hok
    rw [parseLoop.eq_def] at hok
    simp [ctrlTok, altTok, shiftTok, cmdTok, fnTok] at hok
    exact ih (fun hm => hmem (List.mem_cons_of_mem _ hm)) hst st' hok
  | case7 component st h1 h2 h3 h4 h5 next rest2 hsp =>
    intro _ _ st' hok
    simp only [parseLoop, if_neg h1, if_neg h2, if_neg h3, if_neg h4, if_neg h5,
      if_pos hsp] at hok
    cases hok
    simp
  | case8 component st h1 h2 h3 h4 h5 next rest2 hsp hime ih =>
    intro hmem _ st' hok
    simp only [parseLoop, if_neg h1, if_neg h2, if_neg h3, if_neg h4, if_neg h5,
      if_neg hsp, if_pos hime] at hok
    have hcne : component ≠ [] := fun hc => hmem (hc ▸ List.mem_cons_self _ _)
    refine ih ?_ ?_ st' hok
    · intro hm
      exact hmem (List.mem_cons_of_mem _ (List.mem_cons_of_mem _ hm))
    · simp [hcne]
  | case9 component st h1 h2 h3 h4 h5 next rest2 hsp hime =>
    intro _ _ st' hok
    simp only [parseLoop, if_neg h1, if_neg h2, if_neg h3, if_neg h4, if_neg h5,
      if_neg hsp, if_neg hime] at hok
    simp at hok
  | case10 component st h1 h2 h3 h4 h5 =>
    intro hmem _ st' hok
    simp only [parseLoop, if_neg h1, if_neg h2, if_neg h3, if_neg h4,
      if_neg h5] at hok
    cases hok
    have hcne : component ≠ [] := fun hc => hmem (hc ▸ List.mem_cons_self _ _)
    simp [hcne]

/-- C2 (amended): a successful parse can return an empty key (for example on
the sources `""` and `"ctrl-"`), but whenever no `'-'`-separated component of
the source is empty, the key of a successfully parsed keystroke is
non-empty. -/
theorem parse_key_nonempty (source : Str) (k : Keystroke)
    (hne : ([] : Str) ∉ splitChar '-' source)
    (hok : Keystroke.parse source = .ok k) : k.key ≠ [] := by
  unfold Keystroke.parse at hok
  rcases hres : parseLoop source (splitChar '-' source) {} with e | st
  · rw [hres] at hok
    simp at hok
  · rw [hres] at hok
    have hinv := parseLoop_key_ne_nil source (splitChar '-' source) {} hne
      (by simp) st hres
    rcases hkey : st.key with _ | key
    · simp [hkey] at hok
    · rw [hkey] at hinv
      simp only [hkey] at hok
      cases hok
      simpa using hinv

theorem parse_key_nonempty_witness :
    (Keystroke.mk ⟨true, false, false, false, false⟩ ['s'] none).key ≠ [] :=
  parse_key_nonempty ['c', 't', 'r', 'l', '-', 's'] _ (by decide) rfl

/-- Modelled from the spec: `format_as_grammar`, the inverse grammar encoding
(it has no counterpart in the excerpt's source): the modifier tokens in the
grammar's canonical order `ctrl-alt-shift-cmd-fn`, each followed by a hyphen,
then the key token. -/
def formatAsGrammar (k : Keystroke) : Str :=
  (if k.modifiers.control then ctrlTok ++ ['-'] else [])
  ++ ((if k.modifiers.alt then altTok ++ ['-'] else [])
  ++ ((if k.modifiers.shift then shiftTok ++ ['-'] else [])
  ++ ((if k.modifiers.command then cmdTok ++ ['-'] else [])
  ++ ((if k.modifiers.function then fnTok ++ ['-'] else [])
  ++ k.key))))

/-- The known multi-character key names of the spec (space, tab, enter, the
navigation keys, and the function keys). -/
def knownKeyNames : List Str :=
  [['s', 'p', 'a', 'c', 'e'], ['t', 'a', 'b'], ['e', 'n', 't', 'e', 'r'],
   ['u', 'p'], ['d', 'o', 'w', 'n'], ['l', 'e', 'f', 't'],
   ['r', 'i', 'g', 'h', 't'], ['p', 'a', 'g', 'e', 'u', 'p'],
   ['p', 'a', 'g', 'e', 'd', 'o', 'w', 'n'], ['h', 'o', 'm', 'e'],
   ['e', 'n', 'd'], ['d', 'e', 'l', 'e', 't', 'e'],
   ['e', 's', 'c', 'a', 'p', 'e'], ['b', 'a', 'c', 'k', 's', 'p', 'a', 'c', 'e'],
   ['f', '1'], ['f', '2'], ['f', '3'], ['f', '4'], ['f', '5'], ['f', '6'],
   ['f', '7'], ['f', '8'], ['f', '9'], ['f', '1', '0'], ['f', '1', '1'],
   ['f', '1', '2']]

theorem splitChar_append_tok (t : Str) (ht : '-' ∉ t) (r : Str) :
    splitChar '-' (t ++ '-' :: r) = t :: splitChar '-' r := by
  induction t with
  | nil => simp [splitChar]
  | cons ch t ih =>
    have hch : ch ≠ '-' := by
      rintro rfl
      exact ht (List.mem_cons_self _ _)
    have ht' : '-' ∉ t := fun hm => ht (List.mem_cons_of_mem _ hm)
    simp [splitChar, hch, ih ht']

theorem splitChar_no_sep (t : Str) (ht : '-' ∉ t) : splitChar '-' t = [t] := by
  induction t with
  | nil => simp [splitChar]
  | cons ch t ih =>
    have hch : ch ≠ '-' := by
      rintro rfl
      exact ht (List.mem_cons_self _ _)
    have ht' : '-' ∉ t := fun hm => ht (List.mem_cons_of_mem _ hm)
    simp [splitChar, hch, ih ht']

theorem splitChar_ctrl (r : Str) :
    splitChar '-' (ctrlTok ++ '-' :: r) = ctrlTok :: splitChar '-' r :=
  splitChar_append_tok _ (by decide) r

theorem splitChar_alt (r : Str) :
    splitChar '-' (altTok ++ '-' :: r) = altTok :: splitChar '-' r :=
  splitChar_append_tok _ (by decide) r

theorem splitChar_shift (r : Str) :
    splitChar '-' (shiftTok ++ '-' :: r) = shiftTok :: splitChar '-' r :=
  splitChar_append_tok _ (by decide) r

theorem splitChar_cmd (r : Str) :
    splitChar '-' (cmdTok ++ '-' :: r) = cmdTok :: splitChar '-' r :=
  splitChar_append_tok _ (by decide) r

theorem splitChar_fn (r : Str) :
    splitChar '-' (fnTok ++ '-' :: r) = fnTok :: splitChar '-' r :=
  splitChar_append_tok _ (by decide) r

theorem parseLoop_ctrl (source : Str) (rest : List Str) (st : ParseState) :
    parseLoop source (ctrlTok :: rest) st
      = parseLoop source rest { st with control := true } := by
  rw [parseLoop.eq_def]
  simp [ctrlTok, altTok, shiftTok, cmdTok, fnTok]

theorem parseLoop_alt (source : Str) (rest : List Str) (st : ParseState) :
    parseLoop source (altTok :: rest) st
      = parseLoop source rest { st with alt := true } := by
  rw [parseLoop.eq_def]
  simp [ctrlTok, altTok, shiftTok, cmdTok, fnTok]

theorem parseLoop_shift (source : Str) (rest : List Str) (st : ParseState) :
    parseLoop source (shiftTok :: rest) st
      = parseLoop source rest { st with shift := true } := by
  rw [parseLoop.eq_def]
  simp [ctrlTok, altTok, shiftTok, cmdTok, fnTok]

theorem parseLoop_cmd (source : Str) (rest : List Str) (st : ParseState) :
    parseLoop source (cmdTok :: rest) st
      = parseLoop source rest { st with command := true } := by
  rw [parseLoop.eq_def]
  simp [ctrlTok, altTok, shiftTok, cmdTok, fnTok]

theorem parseLoop_fntok (source : Str) (rest : List Str) (st : ParseState) :
    parseLoop source (fnTok :: rest) st
      = parseLoop source rest { st with function := true } := by
  rw [parseLoop.eq_def]
  simp [ctrlTok, altTok, shiftTok, cmdTok, fnTok]

theorem parseLoop_single (source : Str) (key : Str)
    (hk : key ∉ modifierTokens) (st : ParseState) :
    parseLoop source [key] st = .ok { st with key := some key } := by
  have h1 : key ≠ ctrlTok := fun h => hk (by simp [modifierTokens, h])
  have h2 : key ≠ altTok := fun h => hk (by simp [modifierTokens, h])
  have h3 : key ≠ shiftTok := fun h => hk (by simp [modifierTokens, h])
  have h4 : key ≠ cmdTok := fun h => hk (by simp [modifierTokens, h])
  have h5 : key ≠ fnTok := fun h => hk (by simp [modifierTokens, h])
  rw [parseLoop.eq_def]
  simp [h1, h2, h3, h4, h5]

theorem parse_format_plain (mods : Modifiers) (key : Str)
    (hk1 : '-' ∉ key) (hk2 : key ∉ modifierTokens) :
    Keystroke.parse (formatAsGrammar ⟨mods, key, none⟩)
      = .ok ⟨mods, key, none⟩ := by
  obtain ⟨c, a, s, m, f⟩ := mods
  have hsp := splitChar_no_sep key hk1
  cases c <;> cases a <;> cases s <;> cases m <;> cases f <;>
    simp [Keystroke.parse, formatAsGrammar, splitChar_ctrl, splitChar_alt,
      splitChar_shift, splitChar_cmd, splitChar_fn, hsp, parseLoop_ctrl,
      parseLoop_alt, parseLoop_shift, parseLoop_cmd, parseLoop_fntok,
      parseLoop_single _ _ hk2]

theorem parse_format_hyphen (mods : Modifiers) :
    Keystroke.parse (formatAsGrammar ⟨mods, ['-'], none⟩)
      = .ok ⟨mods, ['-'], none⟩ := by
  obtain ⟨c, a, s, m, f⟩ := mods
  cases c <;> cases a <;> cases s <;> cases m <;> cases f <;> rfl

/-- C8: round-trip: for every keystroke without `ime_key` whose key has
length one or is a known multi-character key name, parsing the inverse
grammar encoding returns exactly the original keystroke. -/
theorem parse_formatAsGrammar (k : Keystroke) (h1 : k.ime_key = none)
    (h2 : k.key.length = 1 ∨ k.key ∈ knownKeyNames) :
    Keystroke.parse (formatAsGrammar k) = .ok k := by
  obtain ⟨mods, key, ime⟩ := k
  cases ime with
  | some i => simp at h1
  | none =>
    simp only at h2
    rcases h2 with hlen | hmem
    · obtain ⟨ch, rfl⟩ := List.length_eq_one.mp hlen
      by_cases hch : ch = '-'
      · subst hch
        exact parse_format_hyphen mods
      · refine parse_format_plain mods [ch] ?_ ?_
        · simp only [List.mem_singleton]
          exact fun h => hch h.symm
        · intro hmem
          simp [modifierTokens, ctrlTok, altTok, shiftTok, cmdTok, fnTok] at hmem
    · have hprops : ∀ x ∈ knownKeyNames, '-' ∉ x ∧ x ∉ modifierTokens := by decide
      obtain ⟨hk1, hk2⟩ := hprops key hmem
      exact parse_format_plain mods key hk1 hk2

theorem parse_formatAsGrammar_witness :
    Keystroke.parse (formatAsGrammar
        ⟨⟨true, false, true, false, false⟩, ['s'], none⟩)
      = .ok ⟨⟨true, false, true, false, false⟩, ['s'], none⟩ :=
  parse_formatAsGrammar ⟨⟨true, false, true, false, false⟩, ['s'], none⟩
    rfl (Or.inl rfl)

end Keystrokes
